import Mathlib

/-!
# Verification of `NetworkedStorage` (helia, packages/utils/src/utils/networked-storage.ts)

A shallow embedding of the networked block-storage facade: CIDs, blocks,
the tiered local blockstore (identity tier over a backing store), block
brokers with optional `retrieve` / `announce` / `createSession`
capabilities, the retrieval race (`raceBlockRetrievers`, a model of
`Promise.any` over broker attempts), and the facade operations
`put` / `get` / `createSession`.

Asynchrony is modelled by giving each broker retrieval attempt a
resolution time (a `Nat`); `Promise.any` accepts the fulfilled attempt
with the smallest resolution time (ties broken by position in the broker
list, matching event-loop determinism).  Effects (progress events, broker
invocations, blockstore reads/writes) are recorded in an explicit event
trace.  Announce fan-outs (`await Promise.all(brokers.map(async broker =>
broker.announce?.(...)))`) invoke every capable broker and reject when any
broker's announce rejects, exactly as the `Promise.all` in the source.
-/

set_option autoImplicit false

namespace Helia

/-- A CID: version, codec, multihash algorithm code and multihash digest
bytes (bytes are modelled as `List Nat`). -/
structure CID where
  version : Nat
  codec : Nat
  mhCode : Nat
  mhDigest : List Nat
deriving DecidableEq, Repr

/-- A block is an immutable byte payload. -/
abbrev Block := List Nat

/-- A multihash hasher: produces the digest bytes of a block
(`hasher.digest(block).digest` in the source). -/
structure MultihashHasher where
  digest : Block → List Nat

/-- Failure of a single broker retrieval attempt: a network-level error
(`retrieve` rejected), the `ERR_HASH_MISMATCH` thrown by the verifier, or
a cancellation observed through the abort signal. -/
inductive AErr where
  | network (code : Nat)
  | hashMismatch
  | cancelled
deriving DecidableEq, Repr

/-- Failure surfaced by a facade operation: blockstore not-found, the
`ERR_UNKNOWN_HASH_ALG` thrown by `getCidBlockVerifierFunction`, the
`AggregateError` of `Promise.any` (wrapping every attempt failure in
broker-list order), or the rejection of an awaited announce `Promise.all`. -/
inductive Err where
  | notFound
  | unknownHashAlg
  | aggregate (errs : List AErr)
  | announceRejected
deriving DecidableEq, Repr

instance {ε α : Type} [DecidableEq ε] [DecidableEq α] : DecidableEq (Except ε α) :=
  fun x y =>
    match x, y with
    | .ok a, .ok b =>
        if h : a = b then .isTrue (by rw [h])
        else .isFalse (fun hh => h (Except.ok.inj hh))
    | .error a, .error b =>
        if h : a = b then .isTrue (by rw [h])
        else .isFalse (fun hh => h (Except.error.inj hh))
    | .ok _, .error _ => .isFalse (fun hh => Except.noConfusion hh)
    | .error _, .ok _ => .isFalse (fun hh => Except.noConfusion hh)

/-- The behaviour of one broker `retrieve(cid, { signal, validateFn })`
invocation: the (event-loop) time at which the returned promise settles,
whether the broker invokes the supplied `validateFn` on the block it is
about to return while retrieving, and the settlement itself (a block or a
rejection).  Honest-broker assumption: the bytes a broker passes to
`validateFn` are the bytes it resolves with. -/
structure RetrieveSpec where
  time : Nat
  callsValidate : Bool
  outcome : Except AErr Block
deriving Repr

/-- A block broker: all three capabilities are independently optional
(`retrieve`, `announce`, `createSession`).  The announce result is `true`
when the announce promise fulfils and `false` when it rejects;
`createSession` produces the root-scoped broker. -/
inductive Broker : Type where
  | mk (retrieve? : Option (CID → RetrieveSpec))
      (announce? : Option (CID → Block → Bool))
      (session? : Option (CID → Broker))

def Broker.retrieve : Broker → Option (CID → RetrieveSpec)
  | .mk r _ _ => r

def Broker.announce : Broker → Option (CID → Block → Bool)
  | .mk _ a _ => a

def Broker.createSession : Broker → Option (CID → Broker)
  | .mk _ _ c => c

/-- The state of the single backing persistent blockstore: an association
list of CID/block pairs. -/
abbrev Store := List (CID × Block)

def storeHas (s : Store) (cid : CID) : Bool :=
  s.any (fun p => p.1 = cid)

def storeGet (s : Store) (cid : CID) : Option Block :=
  (s.find? (fun p => p.1 = cid)).map Prod.snd

def storePut (s : Store) (cid : CID) (blk : Block) : Store :=
  (cid, blk) :: s

/-- The multihash code of the identity hash (`0x00`); `IdentityBlockstore`
holds exactly the CIDs with this code. -/
def identityCode : Nat := 0

/-- The shape of a blockstore object: the caller-supplied backing store,
an `IdentityBlockstore`, or a `TieredBlockstore` over two child stores
(the `NetworkedStorage` constructor always builds
`new TieredBlockstore([new IdentityBlockstore(), components.blockstore])`,
a two-element tier).  All state lives in the single backing `Store`; the
identity tier is stateless. -/
inductive Blockstore where
  | backing
  | identity
  | tiered (fst snd : Blockstore)

/-- `has`: the identity tier holds a CID iff its multihash code is the
identity code; a tiered store holds a CID iff some child does. -/
def bsHas : Blockstore → Store → CID → Bool
  | .backing, s, cid => storeHas s cid
  | .identity, _, cid => cid.mhCode = identityCode
  | .tiered a b, s, cid => bsHas a s cid || bsHas b s cid

/-- `get`: first tier that holds the CID wins; the identity tier serves
the CID's own digest bytes. -/
def bsGet : Blockstore → Store → CID → Option Block
  | .backing, s, cid => storeGet s cid
  | .identity, _, cid =>
      if cid.mhCode = identityCode then some cid.mhDigest else none
  | .tiered a b, s, cid => (bsGet a s cid).or (bsGet b s cid)

/-- `put`: a tiered store writes to every child in order; the identity
tier's put is a no-op. -/
def bsPut : Blockstore → Store → CID → Block → Store
  | .backing, s, cid, blk => storePut s cid blk
  | .identity, s, _, _ => s
  | .tiered a b, s, cid, blk => bsPut b (bsPut a s cid blk) cid blk

/-- Event trace entries: progress events (name and optional CID), a broker
`retrieve` invocation, a broker `announce` invocation (with its result), a
blockstore write and a blockstore read. -/
inductive Ev where
  | progress (name : String) (cid : Option CID)
  | retrieveCall (idx : Nat) (cid : CID)
  | announceCall (idx : Nat) (cid : CID) (ok : Bool)
  | storeWrite (cid : CID)
  | storeRead (cid : CID)
deriving DecidableEq, Repr

def Ev.isBrokerCall : Ev → Bool
  | .retrieveCall _ _ => true
  | .announceCall _ _ _ => true
  | _ => false

def Ev.isAnnounce : Ev → Bool
  | .announceCall _ _ _ => true
  | _ => false

def Ev.isWrite : Ev → Bool
  | .storeWrite _ => true
  | _ => false

/-- `getCidBlockVerifierFunction(cid, hasher)`: throws `ERR_UNKNOWN_HASH_ALG`
when `hasher == null`, otherwise returns the `validateFn` that digests the
candidate block and throws `ERR_HASH_MISMATCH` unless the digest equals
`cid.multihash.digest`. -/
def getCidBlockVerifierFunction (cid : CID) (hasher : Option MultihashHasher) :
    Except Err (Block → Except AErr Unit) :=
  match hasher with
  | none => .error .unknownHashAlg
  | some h =>
      .ok (fun blk =>
        if h.digest blk = cid.mhDigest then .ok () else .error .hashMismatch)

/-- The settlement of one mapped attempt inside `Promise.any`, together
with the two validation facts the claims talk about: whether the broker's
own `validateFn` call succeeded (which sets `blocksWereValidated`), and
whether the engine ran `validateFn` itself after `retrieve` resolved. -/
structure AttemptResult where
  settled : Except AErr Block
  brokerValidated : Bool
  engineValidated : Bool
deriving DecidableEq, Repr

/-- One attempt of the race body: `retrieve` runs (the broker optionally
calling `validateFn` on the block it returns, which sets
`blocksWereValidated` when validation succeeds and rejects the attempt when
it throws); if `blocksWereValidated` is still false after `retrieve`
resolves, the engine validates the returned bytes itself, rejecting the
attempt on mismatch. -/
def runAttempt (validateFn : Block → Except AErr Unit) (spec : RetrieveSpec) :
    AttemptResult :=
  match spec.outcome with
  | .error e => ⟨.error e, false, false⟩
  | .ok blk =>
      if spec.callsValidate then
        match validateFn blk with
        | .ok _ => ⟨.ok blk, true, false⟩
        | .error e => ⟨.error e, false, false⟩
      else
        match validateFn blk with
        | .ok _ => ⟨.ok blk, false, true⟩
        | .error e => ⟨.error e, false, true⟩

/-- `Promise.any` over timed attempts: the fulfilled attempt with the
smallest settle time wins (earlier list position wins ties); with no
fulfilled attempt it rejects with the `AggregateError` wrapping every
rejection reason in input order. -/
def mergeAttempt (p : Nat × Except AErr Block) (w : Option (Nat × Block)) :
    Option (Nat × Block) :=
  match p.2 with
  | .error _ => w
  | .ok b =>
      match w with
      | none => some (p.1, b)
      | some q => if p.1 ≤ q.1 then some (p.1, b) else some q

def pickWinner : List (Nat × Except AErr Block) → Option (Nat × Block)
  | [] => none
  | p :: rest => mergeAttempt p (pickWinner rest)

def promiseAny (attempts : List (Nat × Except AErr Block)) : Except Err Block :=
  match pickWinner attempts with
  | some (_, b) => .ok b
  | none =>
      .error (.aggregate (attempts.filterMap
        (fun p => match p.2 with | .error e => some e | .ok _ => none)))

/-- Result of `raceBlockRetrievers`: its settlement, the trace of broker
`retrieve` invocations, and the final aborted state of the engine's
internal `AbortController`.  The source creates that controller
(`const controller = new AbortController()`) and combines its signal into
the `anySignal` passed to every retriever, but contains no
`controller.abort()` call on any path, so the flag is `false` on every
execution; `signal.clear()` in the `finally` block only detaches
listeners. -/
structure RaceResult where
  result : Except Err Block
  events : List Ev
  internalAborted : Bool

/-- `raceBlockRetrievers(cid, blockBrokers, hasher, options)`: build the
verifier (throwing `ERR_UNKNOWN_HASH_ALG` before anything else when the
hasher is missing), filter the brokers to those exposing `retrieve`,
invoke `retrieve` on each concurrently and settle as `Promise.any` does. -/
def raceBlockRetrievers (cid : CID) (blockBrokers : List Broker)
    (hasher : Option MultihashHasher) : RaceResult :=
  match getCidBlockVerifierFunction cid hasher with
  | .error e => ⟨.error e, [], false⟩
  | .ok validateFn =>
      let retrievers := blockBrokers.filterMap (fun b => b.retrieve)
      let specs := retrievers.map (fun r => r cid)
      let attempts := specs.map
        (fun sp => (sp.time, (runAttempt validateFn sp).settled))
      ⟨promiseAny attempts,
       (List.range retrievers.length).map (fun i => .retrieveCall i cid),
       false⟩

/-- The events of one announce fan-out
(`brokers.map(async broker => broker.announce?.(cid, block, options))`):
every broker exposing `announce` is invoked. -/
def announceEvents (brokers : List Broker) (cid : CID) (blk : Block) : List Ev :=
  brokers.enum.filterMap (fun p =>
    (p.2.announce).map (fun a => .announceCall p.1 cid (a cid blk)))

/-- Whether `await Promise.all(...)` over the announce fan-out fulfils:
it does iff every invoked announce fulfils (a broker without `announce`
contributes `undefined`, which fulfils). -/
def announceAllOk (brokers : List Broker) (cid : CID) (blk : Block) : Bool :=
  brokers.all (fun b =>
    match b.announce with
    | none => true
    | some a => a cid blk)

/-- The `NetworkedStorage` facade: the tiered child blockstore built by
the constructor, the broker list, the hasher registry (a partial map from
multihash code to hasher) and the optional root a session is scoped to
(used only for the logger name). -/
structure NetworkedStorage where
  child : Blockstore
  blockBrokers : List Broker
  hashers : Nat → Option MultihashHasher
  root : Option CID

/-- The constructor: wraps the supplied blockstore as
`new TieredBlockstore([new IdentityBlockstore(), components.blockstore])`. -/
def mkNetworkedStorage (blockstore : Blockstore) (blockBrokers : List Broker)
    (hashers : Nat → Option MultihashHasher) (root : Option CID) :
    NetworkedStorage :=
  ⟨.tiered .identity blockstore, blockBrokers, hashers, root⟩

/-- Outcome of a facade operation returning `α`: the settlement, the
backing-store state afterwards, and the event trace. -/
structure OpResult (α : Type) where
  result : Except Err α
  store : Store
  events : List Ev

/-- `NetworkedStorage.put(cid, block, options)`: if the child already has
the CID, emit `blocks:put:duplicate` and return the CID; otherwise emit
`blocks:put:providers:notify`, await the announce fan-out over every
broker (its rejection rejects the put, before any write), then emit
`blocks:put:blockstore:put` and write the block to the child. -/
def NetworkedStorage.put (f : NetworkedStorage) (s : Store) (cid : CID)
    (blk : Block) : OpResult CID :=
  if bsHas f.child s cid then
    ⟨.ok cid, s, [.progress "blocks:put:duplicate" (some cid)]⟩
  else
    let annEvs := announceEvents f.blockBrokers cid blk
    if announceAllOk f.blockBrokers cid blk then
      ⟨.ok cid, bsPut f.child s cid blk,
       .progress "blocks:put:providers:notify" (some cid) :: annEvs ++
         [.progress "blocks:put:blockstore:put" (some cid), .storeWrite cid]⟩
    else
      ⟨.error .announceRejected, s,
       .progress "blocks:put:providers:notify" (some cid) :: annEvs⟩

/-- `NetworkedStorage.get(cid, options)`: when `options.offline !== true`
and the child does not have the CID, emit `blocks:get:providers:get`, run
`raceBlockRetrievers` (which may reject with `ERR_UNKNOWN_HASH_ALG` or the
aggregate error), then emit `blocks:get:blockstore:put`, write the block
to the child, emit `blocks:get:providers:notify` and await the announce
fan-out (its rejection rejects the get, after the write).  Otherwise emit
`blocks:get:blockstore:get` and read from the child (a miss is the child's
not-found rejection). -/
def NetworkedStorage.get (f : NetworkedStorage) (s : Store) (cid : CID)
    (offline : Bool) : OpResult Block :=
  if offline ≠ true ∧ bsHas f.child s cid ≠ true then
    let race := raceBlockRetrievers cid f.blockBrokers (f.hashers cid.mhCode)
    match race.result with
    | .error e =>
        ⟨.error e, s, .progress "blocks:get:providers:get" (some cid) :: race.events⟩
    | .ok blk =>
        let s2 := bsPut f.child s cid blk
        let annEvs := announceEvents f.blockBrokers cid blk
        let evs := .progress "blocks:get:providers:get" (some cid) :: race.events ++
          [.progress "blocks:get:blockstore:put" (some cid), .storeWrite cid,
           .progress "blocks:get:providers:notify" (some cid)] ++ annEvs
        if announceAllOk f.blockBrokers cid blk then
          ⟨.ok blk, s2, evs⟩
        else
          ⟨.error .announceRejected, s2, evs⟩
  else
    match bsGet f.child s cid with
    | some blk =>
        ⟨.ok blk, s,
         [.progress "blocks:get:blockstore:get" (some cid), .storeRead cid]⟩
    | none =>
        ⟨.error .notFound, s,
         [.progress "blocks:get:blockstore:get" (some cid), .storeRead cid]⟩

/-- `NetworkedStorage.has(cid)`: straight through to the child. -/
def NetworkedStorage.hasBlock (f : NetworkedStorage) (s : Store) (cid : CID) :
    Bool :=
  bsHas f.child s cid

/-- `NetworkedStorage.createSession(root, options)`: replace each broker
exposing `createSession` with `broker.createSession(root, options)`, keep
the others, and build a new `NetworkedStorage` over `this.child` (the very
same blockstore object, not a copy), the same hasher registry, tagged with
`root`. -/
def NetworkedStorage.createSession (f : NetworkedStorage) (root : CID) :
    NetworkedStorage :=
  let blockBrokers := f.blockBrokers.map (fun b =>
    match b.createSession with
    | none => b
    | some mks => mks root)
  mkNetworkedStorage f.child blockBrokers f.hashers (some root)

/-- The inline `validateFn` closure built by `getCidBlockVerifierFunction`
for a present hasher, named so theorems can speak about it. -/
def validateBlock (cid : CID) (h : MultihashHasher) : Block → Except AErr Unit :=
  fun blk =>
    if h.digest blk = cid.mhDigest then .ok () else .error .hashMismatch

/-- `p`-events strictly precede `q`-events in a trace: every index holding
a `p`-event is smaller than every index holding a `q`-event. -/
def eventsBefore (evs : List Ev) (p q : Ev → Bool) : Prop :=
  ∀ i j, (hi : i < evs.length) → (hj : j < evs.length) →
    p (evs.get ⟨i, hi⟩) = true → q (evs.get ⟨j, hj⟩) = true → i < j

/- Concrete fixtures used by witnesses and counterexamples.  The test
hasher digests a block to the one-byte sum of its bytes; `tCid` expects
digest `[6]`, so `[1, 2, 3]` and `[4, 2]` are valid payloads for it and
`[5]` is not. -/

def tHasher : MultihashHasher := ⟨fun blk => [blk.sum % 256]⟩

def tHashers : Nat → Option MultihashHasher :=
  fun code => if code = 18 then some tHasher else none

def tCid : CID := ⟨1, 0x55, 18, [6]⟩

def goodBlock : Block := [1, 2, 3]

def altBlock : Block := [4, 2]

def badBlock : Block := [5]

/-- A broker exposing only `retrieve`, with fixed behaviour. -/
def retrieverBroker (t : Nat) (cv : Bool) (out : Except AErr Block) : Broker :=
  .mk (some (fun _ => ⟨t, cv, out⟩)) none none

/-- A broker exposing only `announce`, always fulfilling (`ok = true`) or
always rejecting (`ok = false`). -/
def announceBroker (ok : Bool) : Broker :=
  .mk none (some (fun _ _ => ok)) none

/-- A broker exposing `retrieve` and a rejecting `announce`. -/
def retrieveAnnounceBroker (t : Nat) (out : Except AErr Block) (ok : Bool) :
    Broker :=
  .mk (some (fun _ => ⟨t, false, out⟩)) (some (fun _ _ => ok)) none

/-- A broker whose `createSession` yields a fixed session broker. -/
def sessionCapableBroker (session : Broker) : Broker :=
  .mk none none (some (fun _ => session))

/-! ## Helper lemmas -/

theorem storeHas_storePut_same (s : Store) (cid : CID) (blk : Block) :
    storeHas (storePut s cid blk) cid = true := by
  simp [storeHas, storePut]

theorem storeGet_isSome (s : Store) (cid : CID) :
    (storeGet s cid).isSome = storeHas s cid := by
  induction s with
  | nil => rfl
  | cons p rest ih =>
      by_cases h : p.1 = cid
      · simp [storeGet, storeHas, List.find?, h]
      · simp only [storeGet, storeHas, List.find?, List.any_cons] at ih ⊢
        simp [h, ih]

theorem bsGet_isSome (b : Blockstore) (s : Store) (cid : CID) :
    (bsGet b s cid).isSome = bsHas b s cid := by
  induction b with
  | backing => exact storeGet_isSome s cid
  | identity => by_cases h : cid.mhCode = identityCode <;> simp [bsGet, bsHas, h]
  | tiered a b iha ihb =>
      simp only [bsGet, bsHas, ← iha, ← ihb]
      cases bsGet a s cid <;> simp [Option.or]

theorem bsGet_eq_none (b : Blockstore) (s : Store) (cid : CID)
    (h : bsHas b s cid = false) : bsGet b s cid = none := by
  have := bsGet_isSome b s cid
  rw [h] at this
  exact Option.not_isSome_iff_eq_none.mp (by simp [this])

theorem announceEvents_shape (brokers : List Broker) (cid : CID) (blk : Block) :
    ∀ e ∈ announceEvents brokers cid blk, ∃ i ok, e = .announceCall i cid ok := by
  intro e he
  rcases List.mem_filterMap.mp he with ⟨p, hp, hmap⟩
  cases hb : p.2.announce with
  | none => rw [hb] at hmap; exact absurd hmap (by simp)
  | some a =>
      rw [hb] at hmap
      simp only [Option.map_some'] at hmap
      exact ⟨p.1, a cid blk, (Option.some.inj hmap).symm⟩

theorem pickWinner_mem :
    ∀ (l : List (Nat × Except AErr Block)) (t : Nat) (b : Block),
      pickWinner l = some (t, b) → (t, Except.ok b) ∈ l := by
  intro l
  induction l with
  | nil => intro t b h; exact absurd h (by simp [pickWinner])
  | cons p rest ih =>
      intro t b h
      obtain ⟨tp, r⟩ := p
      cases r with
      | ok bb =>
          cases hw : pickWinner rest with
          | none =>
              rw [pickWinner, hw] at h
              simp only [mergeAttempt, Option.some.injEq, Prod.mk.injEq] at h
              obtain ⟨rfl, rfl⟩ := h
              exact List.mem_cons_self _ _
          | some w =>
              obtain ⟨t2, b2⟩ := w
              rw [pickWinner, hw] at h
              simp only [mergeAttempt] at h
              by_cases hle : tp ≤ t2
              · rw [if_pos hle] at h
                simp only [Option.some.injEq, Prod.mk.injEq] at h
                obtain ⟨rfl, rfl⟩ := h
                exact List.mem_cons_self _ _
              · rw [if_neg hle] at h
                simp only [Option.some.injEq, Prod.mk.injEq] at h
                obtain ⟨rfl, rfl⟩ := h
                exact List.mem_cons_of_mem _ (ih _ _ hw)
      | error e =>
          rw [pickWinner] at h
          simp only [mergeAttempt] at h
          exact List.mem_cons_of_mem _ (ih _ _ h)

theorem pickWinner_all_error :
    ∀ (l : List (Nat × Except AErr Block)) (es : List AErr),
      l.map (fun p => p.2) = es.map Except.error → pickWinner l = none := by
  intro l
  induction l with
  | nil => intro es _; rfl
  | cons p rest ih =>
      intro es h
      cases es with
      | nil => exact absurd h (by simp)
      | cons e es2 =>
          obtain ⟨tp, r⟩ := p
          simp only [List.map_cons, List.cons.injEq] at h
          obtain ⟨h1, h2⟩ := h
          subst h1
          rw [pickWinner]
          simp only [mergeAttempt]
          exact ih es2 h2

theorem filterMap_error_part :
    ∀ (l : List (Nat × Except AErr Block)) (es : List AErr),
      l.map (fun p => p.2) = es.map Except.error →
      l.filterMap (fun p => match p.2 with | .error e => some e | .ok _ => none) = es := by
  intro l
  induction l with
  | nil =>
      intro es h
      cases es with
      | nil => rfl
      | cons e es2 => exact absurd h (by simp)
  | cons p rest ih =>
      intro es h
      cases es with
      | nil => exact absurd h (by simp)
      | cons e es2 =>
          obtain ⟨tp, r⟩ := p
          simp only [List.map_cons, List.cons.injEq] at h
          obtain ⟨h1, h2⟩ := h
          subst h1
          simp only [List.filterMap_cons]
          rw [ih es2 h2]

theorem promiseAny_all_error (l : List (Nat × Except AErr Block)) (es : List AErr)
    (h : l.map (fun p => p.2) = es.map Except.error) :
    promiseAny l = .error (.aggregate es) := by
  unfold promiseAny
  rw [pickWinner_all_error l es h, filterMap_error_part l es h]

theorem runAttempt_ok_validate (v : Block → Except AErr Unit) (sp : RetrieveSpec)
    (blk : Block) (h : (runAttempt v sp).settled = .ok blk) :
    v blk = .ok () ∧ sp.outcome = .ok blk := by
  obtain ⟨t, cv, out⟩ := sp
  cases out with
  | error e => simp [runAttempt] at h
  | ok b =>
      cases cv <;>
      · cases hv : v b with
        | ok u =>
            simp [runAttempt, hv] at h
            subst h
            cases u
            exact ⟨hv, rfl⟩
        | error e => simp [runAttempt, hv] at h

theorem getCidBlockVerifierFunction_some (cid : CID) (h : MultihashHasher) :
    getCidBlockVerifierFunction cid (some h) = .ok (validateBlock cid h) := rfl

theorem race_result_some (cid : CID) (brokers : List Broker) (h : MultihashHasher) :
    (raceBlockRetrievers cid brokers (some h)).result =
      promiseAny (((brokers.filterMap Broker.retrieve).map (fun r => r cid)).map
        (fun sp => (sp.time, (runAttempt (validateBlock cid h) sp).settled))) := rfl

theorem race_ok_validated (cid : CID) (brokers : List Broker) (h : MultihashHasher)
    (blk : Block)
    (hres : (raceBlockRetrievers cid brokers (some h)).result = .ok blk) :
    h.digest blk = cid.mhDigest := by
  rw [race_result_some] at hres
  unfold promiseAny at hres
  cases hw : pickWinner (((brokers.filterMap Broker.retrieve).map (fun r => r cid)).map
      (fun sp => (sp.time, (runAttempt (validateBlock cid h) sp).settled))) with
  | none => rw [hw] at hres; simp at hres
  | some w =>
      obtain ⟨t, b⟩ := w
      rw [hw] at hres
      simp only [Except.ok.injEq] at hres
      subst hres
      have hmem := pickWinner_mem _ _ _ hw
      obtain ⟨sp, hsp, heq⟩ := List.mem_map.mp hmem
      have hset : (runAttempt (validateBlock cid h) sp).settled = .ok b :=
        congrArg Prod.snd heq
      have hv := (runAttempt_ok_validate _ _ _ hset).1
      unfold validateBlock at hv
      by_cases hd : h.digest b = cid.mhDigest
      · exact hd
      · rw [if_neg hd] at hv; exact absurd hv (by simp)

theorem eventsBefore_split (l1 l2 : List Ev) (p q : Ev → Bool)
    (h1 : ∀ e ∈ l1, q e = false) (h2 : ∀ e ∈ l2, p e = false) :
    eventsBefore (l1 ++ l2) p q := by
  intro i j hi hj hp hq
  rcases Nat.lt_or_ge i l1.length with hil | hil
  · rcases Nat.lt_or_ge j l1.length with hjl | hjl
    · exfalso
      have hm : (l1 ++ l2).get ⟨j, hj⟩ ∈ l1 := by
        rw [List.get_eq_getElem, List.getElem_append_left hjl]
        exact List.getElem_mem _
      have := h1 _ hm
      rw [hq] at this
      exact Bool.noConfusion this
    · exact Nat.lt_of_lt_of_le hil hjl
  · exfalso
    have hm : (l1 ++ l2).get ⟨i, hi⟩ ∈ l2 := by
      rw [List.get_eq_getElem, List.getElem_append_right hil]
      exact List.getElem_mem _
    have := h2 _ hm
    rw [hp] at this
    exact Bool.noConfusion this

/-! ## Unfolding lemmas for the facade operations -/

theorem put_eq_duplicate (f : NetworkedStorage) (s : Store) (cid : CID)
    (blk : Block) (h : bsHas f.child s cid = true) :
    f.put s cid blk =
      ⟨.ok cid, s, [.progress "blocks:put:duplicate" (some cid)]⟩ := by
  unfold NetworkedStorage.put
  rw [h]
  rfl

theorem put_eq_write (f : NetworkedStorage) (s : Store) (cid : CID)
    (blk : Block) (h : bsHas f.child s cid = false)
    (hann : announceAllOk f.blockBrokers cid blk = true) :
    f.put s cid blk =
      ⟨.ok cid, bsPut f.child s cid blk,
       .progress "blocks:put:providers:notify" (some cid) ::
         announceEvents f.blockBrokers cid blk ++
         [.progress "blocks:put:blockstore:put" (some cid),
          .storeWrite cid]⟩ := by
  unfold NetworkedStorage.put
  rw [h, hann]
  rfl

theorem put_eq_announce_rejected (f : NetworkedStorage) (s : Store) (cid : CID)
    (blk : Block) (h : bsHas f.child s cid = false)
    (hann : announceAllOk f.blockBrokers cid blk = false) :
    f.put s cid blk =
      ⟨.error .announceRejected, s,
       .progress "blocks:put:providers:notify" (some cid) ::
         announceEvents f.blockBrokers cid blk⟩ := by
  unfold NetworkedStorage.put
  rw [h, hann]
  rfl

theorem get_eq_local_some (f : NetworkedStorage) (s : Store) (cid : CID)
    (off : Bool) (hcond : ¬(off ≠ true ∧ bsHas f.child s cid ≠ true))
    (blk : Block) (hget : bsGet f.child s cid = some blk) :
    f.get s cid off =
      ⟨.ok blk, s,
       [.progress "blocks:get:blockstore:get" (some cid), .storeRead cid]⟩ := by
  unfold NetworkedStorage.get
  rw [if_neg hcond, hget]

theorem get_eq_local_none (f : NetworkedStorage) (s : Store) (cid : CID)
    (off : Bool) (hcond : ¬(off ≠ true ∧ bsHas f.child s cid ≠ true))
    (hget : bsGet f.child s cid = none) :
    f.get s cid off =
      ⟨.error .notFound, s,
       [.progress "blocks:get:blockstore:get" (some cid), .storeRead cid]⟩ := by
  unfold NetworkedStorage.get
  rw [if_neg hcond, hget]

theorem get_eq_race_error (f : NetworkedStorage) (s : Store) (cid : CID)
    (hhas : bsHas f.child s cid = false) (e : Err)
    (hres : (raceBlockRetrievers cid f.blockBrokers
        (f.hashers cid.mhCode)).result = .error e) :
    f.get s cid false =
      ⟨.error e, s,
       .progress "blocks:get:providers:get" (some cid) ::
         (raceBlockRetrievers cid f.blockBrokers
           (f.hashers cid.mhCode)).events⟩ := by
  have hc : (false : Bool) ≠ true ∧ bsHas f.child s cid ≠ true := by
    simp [hhas]
  unfold NetworkedStorage.get
  rw [if_pos hc]
  dsimp only
  rw [hres]

theorem get_eq_network_ok (f : NetworkedStorage) (s : Store) (cid : CID)
    (blk : Block) (hhas : bsHas f.child s cid = false)
    (hres : (raceBlockRetrievers cid f.blockBrokers
        (f.hashers cid.mhCode)).result = .ok blk)
    (hann : announceAllOk f.blockBrokers cid blk = true) :
    f.get s cid false =
      ⟨.ok blk, bsPut f.child s cid blk,
       .progress "blocks:get:providers:get" (some cid) ::
         (raceBlockRetrievers cid f.blockBrokers
           (f.hashers cid.mhCode)).events ++
         [.progress "blocks:get:blockstore:put" (some cid), .storeWrite cid,
          .progress "blocks:get:providers:notify" (some cid)] ++
         announceEvents f.blockBrokers cid blk⟩ := by
  have hc : (false : Bool) ≠ true ∧ bsHas f.child s cid ≠ true := by
    simp [hhas]
  unfold NetworkedStorage.get
  rw [if_pos hc]
  dsimp only
  rw [hres]
  simp [hann]

theorem get_eq_network_announce_rejected (f : NetworkedStorage) (s : Store)
    (cid : CID) (blk : Block) (hhas : bsHas f.child s cid = false)
    (hres : (raceBlockRetrievers cid f.blockBrokers
        (f.hashers cid.mhCode)).result = .ok blk)
    (hann : announceAllOk f.blockBrokers cid blk = false) :
    f.get s cid false =
      ⟨.error .announceRejected, bsPut f.child s cid blk,
       .progress "blocks:get:providers:get" (some cid) ::
         (raceBlockRetrievers cid f.blockBrokers
           (f.hashers cid.mhCode)).events ++
         [.progress "blocks:get:blockstore:put" (some cid), .storeWrite cid,
          .progress "blocks:get:providers:notify" (some cid)] ++
         announceEvents f.blockBrokers cid blk⟩ := by
  have hc : (false : Bool) ≠ true ∧ bsHas f.child s cid ≠ true := by
    simp [hhas]
  unfold NetworkedStorage.get
  rw [if_pos hc]
  dsimp only
  rw [hres]
  simp [hann]

theorem race_events_some (cid : CID) (brokers : List Broker)
    (h : MultihashHasher) :
    (raceBlockRetrievers cid brokers (some h)).events =
      (List.range (brokers.filterMap Broker.retrieve).length).map
        (fun i => .retrieveCall i cid) := rfl

theorem race_events_shape (cid : CID) (brokers : List Broker)
    (hasher : Option MultihashHasher) :
    ∀ e ∈ (raceBlockRetrievers cid brokers hasher).events,
      ∃ i, e = .retrieveCall i cid := by
  intro e he
  cases hasher with
  | none => exact absurd he (by simp [raceBlockRetrievers, getCidBlockVerifierFunction])
  | some h =>
      rw [race_events_some] at he
      obtain ⟨i, _, rfl⟩ := List.mem_map.mp he
      exact ⟨i, rfl⟩

theorem eventsBefore_of_no_q (l : List Ev) (p q : Ev → Bool)
    (h : ∀ e ∈ l, q e = false) : eventsBefore l p q := by
  have h2 := eventsBefore_split l [] p q h (by simp)
  rw [List.append_nil] at h2
  exact h2

theorem eventsBefore_of_no_p (l : List Ev) (p q : Ev → Bool)
    (h : ∀ e ∈ l, p e = false) : eventsBefore l p q := by
  exact eventsBefore_split [] l p q (by simp) h

/-! ## Claim theorems -/

/-- Claim C2 (code-bug evidence): `raceBlockRetrievers` creates an internal
`AbortController` but contains no `controller.abort()` call on any path, so
the engine never signals cancellation to losing attempts.  In the race
where broker B resolves early with a valid block and broker A resolves late
with a valid block, B's block wins and yet the shared signal passed to A's
still-in-flight attempt is never aborted by the engine, contradicting the
claim (and the function's own doc comment). -/
theorem race_never_signals_internal_cancellation :
    (∀ (cid : CID) (brokers : List Broker) (hasher : Option MultihashHasher),
      (raceBlockRetrievers cid brokers hasher).internalAborted = false) ∧
    (raceBlockRetrievers tCid
        [retrieverBroker 2 false (.ok goodBlock),
         retrieverBroker 1 false (.ok altBlock)]
        (some tHasher)).result = .ok altBlock ∧
    (raceBlockRetrievers tCid
        [retrieverBroker 2 false (.ok goodBlock),
         retrieverBroker 1 false (.ok altBlock)]
        (some tHasher)).internalAborted = false := by
  refine ⟨fun cid brokers hasher => ?_, by decide, by decide⟩
  cases hasher <;> rfl

/-- Claim C7: with a configured hasher, the race rejects with an empty
`AggregateError` when no broker exposes `retrieve`, and when every attempt
rejects it rejects with the `AggregateError` wrapping every individual
attempt failure in broker order; in both cases it does not resolve with a
block. -/
theorem race_aggregate_on_no_success (cid : CID) (brokers : List Broker)
    (h : MultihashHasher) :
    (brokers.filterMap Broker.retrieve = [] →
      (raceBlockRetrievers cid brokers (some h)).result =
        .error (.aggregate [])) ∧
    (∀ es : List AErr,
      ((brokers.filterMap Broker.retrieve).map
        (fun r => (runAttempt (validateBlock cid h) (r cid)).settled)) =
          es.map Except.error →
      (raceBlockRetrievers cid brokers (some h)).result =
        .error (.aggregate es)) := by
  constructor
  · intro hempty
    rw [race_result_some, hempty]
    rfl
  · intro es hall
    rw [race_result_some]
    apply promiseAny_all_error
    simpa [List.map_map, Function.comp] using hall

/-- Claim C7 witness: a broker set with no `retrieve` capability yields the
empty aggregate; a network failure at time 1 plus a digest mismatch at time
2 yield the aggregate wrapping both failures in order. -/
theorem race_aggregate_on_no_success_witness :
    (raceBlockRetrievers tCid [announceBroker true] (some tHasher)).result =
      .error (.aggregate []) ∧
    (raceBlockRetrievers tCid
        [retrieverBroker 1 false (.error (.network 7)),
         retrieverBroker 2 false (.ok badBlock)]
        (some tHasher)).result =
      .error (.aggregate [.network 7, .hashMismatch]) :=
  ⟨(race_aggregate_on_no_success tCid [announceBroker true] tHasher).1 rfl,
   (race_aggregate_on_no_success tCid
      [retrieverBroker 1 false (.error (.network 7)),
       retrieverBroker 2 false (.ok badBlock)] tHasher).2
      [.network 7, .hashMismatch] (by decide)⟩

/-- Claim C4: when a broker did not call the validate callback during its
own retrieval, the engine runs the validator on the returned bytes and
accepts exactly when the digest matches; an attempt resolving with
mismatched bytes fails by itself with the hash-mismatch error, and a
broker resolving (even later) with matching bytes wins the race. -/
theorem race_validates_and_survives_mismatch (cid : CID) (h : MultihashHasher)
    (tA tB : Nat) (cvA cvB : Bool) (bad good : Block)
    (hbad : h.digest bad ≠ cid.mhDigest)
    (hgood : h.digest good = cid.mhDigest) :
    (∀ (v : Block → Except AErr Unit) (sp : RetrieveSpec) (blk : Block),
        sp.callsValidate = false → sp.outcome = .ok blk →
        (runAttempt v sp).engineValidated = true ∧
        ((runAttempt v sp).settled = .ok blk ↔ v blk = .ok ())) ∧
    (runAttempt (validateBlock cid h) ⟨tA, cvA, .ok bad⟩).settled =
      .error .hashMismatch ∧
    (raceBlockRetrievers cid
        [.mk (some (fun _ => ⟨tA, cvA, .ok bad⟩)) none none,
         .mk (some (fun _ => ⟨tB, cvB, .ok good⟩)) none none]
        (some h)).result = .ok good := by
  refine ⟨?_, ?_, ?_⟩
  · intro v sp blk h1 h2
    obtain ⟨t, cv, out⟩ := sp
    simp only at h1 h2
    subst h1
    subst h2
    cases hv : v blk with
    | ok u => cases u; simp [runAttempt, hv]
    | error e => simp [runAttempt, hv]
  · cases cvA <;> simp [runAttempt, validateBlock, hbad]
  · rw [race_result_some]
    simp only [List.filterMap_cons, List.filterMap_nil, Broker.retrieve,
      List.map_cons, List.map_nil]
    cases cvA <;> cases cvB <;>
      simp [runAttempt, validateBlock, hbad, hgood, promiseAny, pickWinner,
        mergeAttempt]

/-- Claim C4 witness: at the concrete race where broker A resolves at time
1 with a mismatched block and broker B at time 2 with a matching one, the
race resolves with B's block. -/
theorem race_validates_and_survives_mismatch_witness :
    tHasher.digest badBlock ≠ tCid.mhDigest ∧
    tHasher.digest goodBlock = tCid.mhDigest ∧
    (raceBlockRetrievers tCid
        [.mk (some (fun _ => ⟨1, false, .ok badBlock⟩)) none none,
         .mk (some (fun _ => ⟨2, false, .ok goodBlock⟩)) none none]
        (some tHasher)).result = .ok goodBlock :=
  ⟨by decide, by decide,
   (race_validates_and_survives_mismatch tCid tHasher 1 2 false false badBlock
      goodBlock (by decide) (by decide)).2.2⟩

/-- Claim C5: `get` invokes no broker method (neither `retrieve` nor
`announce`) when the child blockstore already holds the CID or when
`offline` is set; an offline miss settles with the child tier's not-found
failure. -/
theorem get_local_or_offline_no_broker (f : NetworkedStorage) (s : Store)
    (cid : CID) (off : Bool)
    (hcond : bsHas f.child s cid = true ∨ off = true) :
    (∀ e ∈ (f.get s cid off).events, e.isBrokerCall = false) ∧
    (off = true → bsHas f.child s cid = false →
      (f.get s cid off).result = .error .notFound) := by
  have hns : ¬(off ≠ true ∧ bsHas f.child s cid ≠ true) := by
    rcases hcond with h | h
    · exact fun hc => hc.2 h
    · exact fun hc => hc.1 h
  constructor
  · intro e he
    cases hbg : bsGet f.child s cid with
    | some blk =>
        rw [get_eq_local_some f s cid off hns blk hbg] at he
        simp only [List.mem_cons, List.mem_singleton] at he
        rcases he with rfl | rfl | he
        · rfl
        · rfl
        · exact absurd he (List.not_mem_nil e)
    | none =>
        rw [get_eq_local_none f s cid off hns hbg] at he
        simp only [List.mem_cons, List.mem_singleton] at he
        rcases he with rfl | rfl | he
        · rfl
        · rfl
        · exact absurd he (List.not_mem_nil e)
  · intro _ hhas
    rw [get_eq_local_none f s cid off hns (bsGet_eq_none f.child s cid hhas)]

/-- Claim C5 witness: with an empty store and a broker exposing both
`retrieve` and `announce`, an offline `get` performs no broker call and
fails with the not-found error. -/
theorem get_local_or_offline_no_broker_witness :
    (bsHas (mkNetworkedStorage .backing
        [retrieveAnnounceBroker 1 (.ok goodBlock) true] tHashers none).child
        [] tCid = true ∨ (true : Bool) = true) ∧
    ((∀ e ∈ ((mkNetworkedStorage .backing
        [retrieveAnnounceBroker 1 (.ok goodBlock) true] tHashers none).get
        [] tCid true).events, e.isBrokerCall = false) ∧
     ((true : Bool) = true →
      bsHas (mkNetworkedStorage .backing
        [retrieveAnnounceBroker 1 (.ok goodBlock) true] tHashers none).child
        [] tCid = false →
      ((mkNetworkedStorage .backing
        [retrieveAnnounceBroker 1 (.ok goodBlock) true] tHashers none).get
        [] tCid true).result = .error .notFound)) :=
  ⟨Or.inr rfl,
   get_local_or_offline_no_broker
     (mkNetworkedStorage .backing
       [retrieveAnnounceBroker 1 (.ok goodBlock) true] tHashers none)
     [] tCid true (Or.inr rfl)⟩

/-- Claim C10: when no hasher is registered for the CID's multihash code,
`get` still serves a locally-present block, because the hasher lookup is
only inspected inside the race's validator construction; a local miss
without `offline` rejects with the unknown-hash-algorithm configuration
error, as does the race itself for every broker list. -/
theorem get_missing_hasher_local_hit (f : NetworkedStorage) (s : Store)
    (cid : CID) (off : Bool) (hmiss : f.hashers cid.mhCode = none) :
    (∀ blk, bsGet f.child s cid = some blk →
      (f.get s cid off).result = .ok blk) ∧
    (bsHas f.child s cid = false →
      (f.get s cid false).result = .error .unknownHashAlg) ∧
    (∀ brokers : List Broker,
      (raceBlockRetrievers cid brokers none).result = .error .unknownHashAlg) := by
  refine ⟨?_, ?_, fun brokers => rfl⟩
  · intro blk hblk
    have hhas : bsHas f.child s cid = true := by
      rw [← bsGet_isSome, hblk]; rfl
    have hns : ¬(off ≠ true ∧ bsHas f.child s cid ≠ true) := fun hc => hc.2 hhas
    rw [get_eq_local_some f s cid off hns blk hblk]
  · intro hhas
    have hrace : (raceBlockRetrievers cid f.blockBrokers
        (f.hashers cid.mhCode)).result = .error .unknownHashAlg := by
      rw [hmiss]
      rfl
    rw [get_eq_race_error f s cid hhas .unknownHashAlg hrace]

/-- Claim C10 witness: with no hasher registered at all, a locally-held
block is still served, and a local miss in online mode rejects with the
configuration error. -/
theorem get_missing_hasher_local_hit_witness :
    ((fun _ : Nat => (none : Option MultihashHasher)) tCid.mhCode = none) ∧
    ((∀ blk, bsGet (mkNetworkedStorage .backing [] (fun _ => none) none).child
        [(tCid, goodBlock)] tCid = some blk →
      ((mkNetworkedStorage .backing [] (fun _ => none) none).get
        [(tCid, goodBlock)] tCid false).result = .ok blk) ∧
     (bsHas (mkNetworkedStorage .backing [] (fun _ => none) none).child
        [(tCid, goodBlock)] tCid = false →
      ((mkNetworkedStorage .backing [] (fun _ => none) none).get
        [(tCid, goodBlock)] tCid false).result = .error .unknownHashAlg) ∧
     (∀ brokers : List Broker,
      (raceBlockRetrievers tCid brokers none).result = .error .unknownHashAlg)) :=
  ⟨rfl,
   get_missing_hasher_local_hit
     (mkNetworkedStorage .backing [] (fun _ => none) none)
     [(tCid, goodBlock)] tCid false rfl⟩

/-- Claim C6: a `put` of a CID the child blockstore already holds emits
only the duplicate progress event, invokes no announce, performs no write
and leaves the store untouched; consequently two successive `put`s of a
fresh CID (with fulfilling announces) produce exactly one announce
fan-out and exactly one local write. -/
theorem put_duplicate_single_fanout (f : NetworkedStorage) (s : Store)
    (cid : CID) (blk : Block)
    (hchild : f.child = .tiered .identity .backing)
    (hfresh : bsHas f.child s cid = false)
    (hann : announceAllOk f.blockBrokers cid blk = true) :
    (∀ s2, bsHas f.child s2 cid = true →
      f.put s2 cid blk =
        ⟨.ok cid, s2, [.progress "blocks:put:duplicate" (some cid)]⟩) ∧
    (f.put s cid blk).result = .ok cid ∧
    (f.put ((f.put s cid blk).store) cid blk).result = .ok cid ∧
    (f.put ((f.put s cid blk).store) cid blk).events =
      [.progress "blocks:put:duplicate" (some cid)] ∧
    (f.put ((f.put s cid blk).store) cid blk).store = (f.put s cid blk).store ∧
    ((f.put s cid blk).events ++
        (f.put ((f.put s cid blk).store) cid blk).events).filter Ev.isAnnounce =
      announceEvents f.blockBrokers cid blk ∧
    (((f.put s cid blk).events ++
        (f.put ((f.put s cid blk).store) cid blk).events).filter
          Ev.isWrite).length = 1 := by
  have hr1 := put_eq_write f s cid blk hfresh hann
  have hhas2 : bsHas f.child (bsPut f.child s cid blk) cid = true := by
    rw [hchild]
    simp [bsHas, bsPut, storeHas_storePut_same]
  have hdup : ∀ s2, bsHas f.child s2 cid = true →
      f.put s2 cid blk =
        ⟨.ok cid, s2, [.progress "blocks:put:duplicate" (some cid)]⟩ :=
    fun s2 h2 => put_eq_duplicate f s2 cid blk h2
  have hfa : (announceEvents f.blockBrokers cid blk).filter Ev.isAnnounce =
      announceEvents f.blockBrokers cid blk := by
    rw [List.filter_eq_self]
    intro e he
    obtain ⟨i, ok, rfl⟩ := announceEvents_shape _ _ _ e he
    rfl
  have hfw : (announceEvents f.blockBrokers cid blk).filter Ev.isWrite = [] := by
    rw [List.filter_eq_nil_iff]
    intro e he
    obtain ⟨i, ok, rfl⟩ := announceEvents_shape _ _ _ e he
    simp [Ev.isWrite]
  have hr2 : f.put ((f.put s cid blk).store) cid blk =
      ⟨.ok cid, (f.put s cid blk).store,
       [.progress "blocks:put:duplicate" (some cid)]⟩ := by
    apply hdup
    rw [hr1]
    exact hhas2
  refine ⟨hdup, by rw [hr1], by rw [hr2], by rw [hr2], by rw [hr2], ?_, ?_⟩
  · rw [hr2, hr1]
    simp only [OpResult.events]
    simp [List.filter_append, Ev.isAnnounce, hfa]
  · rw [hr2, hr1]
    simp only [OpResult.events]
    simp [List.filter_append, Ev.isWrite, hfw]

/-- Claim C6 witness: over the backing store with one announcing broker,
the second `put` of the same CID emits only the duplicate event, and the
two calls together perform one announce fan-out and one write. -/
theorem put_duplicate_single_fanout_witness :
    bsHas (mkNetworkedStorage .backing [announceBroker true] tHashers none).child
      [] tCid = false ∧
    announceAllOk [announceBroker true] tCid goodBlock = true ∧
    ((((mkNetworkedStorage .backing [announceBroker true] tHashers none).put
        [] tCid goodBlock).events ++
      ((mkNetworkedStorage .backing [announceBroker true] tHashers none).put
        (((mkNetworkedStorage .backing [announceBroker true] tHashers none).put
          [] tCid goodBlock).store) tCid goodBlock).events).filter
        Ev.isWrite).length = 1 :=
  ⟨by decide, by decide,
   (put_duplicate_single_fanout
     (mkNetworkedStorage .backing [announceBroker true] tHashers none)
     [] tCid goodBlock rfl (by decide) (by decide)).2.2.2.2.2.2⟩

/-- Claim C8: in every `put` execution each announce invocation strictly
precedes every blockstore write, and in every `get` execution each
blockstore write strictly precedes every announce invocation. -/
theorem put_get_announce_write_order (f : NetworkedStorage) (s : Store)
    (cid : CID) (blk : Block) (off : Bool) :
    eventsBefore (f.put s cid blk).events Ev.isAnnounce Ev.isWrite ∧
    eventsBefore (f.get s cid off).events Ev.isWrite Ev.isAnnounce := by
  constructor
  · by_cases hhas : bsHas f.child s cid = true
    · rw [put_eq_duplicate f s cid blk hhas]
      apply eventsBefore_of_no_q
      intro e he
      simp only [List.mem_singleton] at he
      subst he
      rfl
    · have hh : bsHas f.child s cid = false := by
        simpa using hhas
      by_cases hann : announceAllOk f.blockBrokers cid blk = true
      · rw [put_eq_write f s cid blk hh hann]
        apply eventsBefore_split
          (Ev.progress "blocks:put:providers:notify" (some cid) ::
            announceEvents f.blockBrokers cid blk)
          [Ev.progress "blocks:put:blockstore:put" (some cid), Ev.storeWrite cid]
        · intro e he
          rcases List.mem_cons.mp he with rfl | he2
          · rfl
          · obtain ⟨i, ok, rfl⟩ := announceEvents_shape _ _ _ e he2
            rfl
        · intro e he
          rcases List.mem_cons.mp he with rfl | he2
          · rfl
          · rcases List.mem_singleton.mp he2 with rfl
            rfl
      · have ha : announceAllOk f.blockBrokers cid blk = false := by
          simpa using hann
        rw [put_eq_announce_rejected f s cid blk hh ha]
        apply eventsBefore_of_no_q
        intro e he
        rcases List.mem_cons.mp he with rfl | he2
        · rfl
        · obtain ⟨i, ok, rfl⟩ := announceEvents_shape _ _ _ e he2
          rfl
  · by_cases hc : off ≠ true ∧ bsHas f.child s cid ≠ true
    · obtain ⟨hoff, hhas⟩ := hc
      have hoff2 : off = false := by
        cases off
        · rfl
        · exact absurd rfl hoff
      subst hoff2
      have hh : bsHas f.child s cid = false := by
        cases hb : bsHas f.child s cid
        · rfl
        · exact absurd hb hhas
      cases hres : (raceBlockRetrievers cid f.blockBrokers
          (f.hashers cid.mhCode)).result with
      | error e =>
          rw [get_eq_race_error f s cid hh e hres]
          apply eventsBefore_of_no_q
          intro ev he
          rcases List.mem_cons.mp he with rfl | he2
          · rfl
          · obtain ⟨i, rfl⟩ := race_events_shape _ _ _ ev he2
            rfl
      | ok b =>
          have key : ∀ evs, evs =
              Ev.progress "blocks:get:providers:get" (some cid) ::
                (raceBlockRetrievers cid f.blockBrokers
                  (f.hashers cid.mhCode)).events ++
                [Ev.progress "blocks:get:blockstore:put" (some cid),
                 Ev.storeWrite cid,
                 Ev.progress "blocks:get:providers:notify" (some cid)] ++
                announceEvents f.blockBrokers cid b →
              eventsBefore evs Ev.isWrite Ev.isAnnounce := by
            intro evs hevs
            subst hevs
            apply eventsBefore_split
              (Ev.progress "blocks:get:providers:get" (some cid) ::
                ((raceBlockRetrievers cid f.blockBrokers
                  (f.hashers cid.mhCode)).events ++
                 [Ev.progress "blocks:get:blockstore:put" (some cid),
                  Ev.storeWrite cid,
                  Ev.progress "blocks:get:providers:notify" (some cid)]))
              (announceEvents f.blockBrokers cid b)
            · intro e he
              rcases List.mem_cons.mp he with rfl | he2
              · rfl
              · rcases List.mem_append.mp he2 with he3 | he3
                · obtain ⟨i, rfl⟩ := race_events_shape _ _ _ e he3
                  rfl
                · rcases List.mem_cons.mp he3 with rfl | he4
                  · rfl
                  · rcases List.mem_cons.mp he4 with rfl | he5
                    · rfl
                    · rcases List.mem_singleton.mp he5 with rfl
                      rfl
            · intro e he
              obtain ⟨i, ok, rfl⟩ := announceEvents_shape _ _ _ e he
              rfl
          by_cases hann : announceAllOk f.blockBrokers cid b = true
          · rw [get_eq_network_ok f s cid b hh hres hann]
            exact key _ (by simp)
          · have ha : announceAllOk f.blockBrokers cid b = false := by
              simpa using hann
            rw [get_eq_network_announce_rejected f s cid b hh hres ha]
            exact key _ (by simp)
    · have hns : ¬(off ≠ true ∧ bsHas f.child s cid ≠ true) := hc
      cases hbg : bsGet f.child s cid with
      | some b =>
          rw [get_eq_local_some f s cid off hns b hbg]
          apply eventsBefore_of_no_q
          intro e he
          rcases List.mem_cons.mp he with rfl | he2
          · rfl
          · rcases List.mem_singleton.mp he2 with rfl
            rfl
      | none =>
          rw [get_eq_local_none f s cid off hns hbg]
          apply eventsBefore_of_no_q
          intro e he
          rcases List.mem_cons.mp he with rfl | he2
          · rfl
          · rcases List.mem_singleton.mp he2 with rfl
            rfl

/-- Claim C8 witness: the ordering facts at a concrete facade, store and
CID, for both `put` and a network-path `get`. -/
theorem put_get_announce_write_order_witness :
    eventsBefore ((mkNetworkedStorage .backing
        [retrieveAnnounceBroker 1 (.ok goodBlock) true] tHashers none).put
        [] tCid goodBlock).events Ev.isAnnounce Ev.isWrite ∧
    eventsBefore ((mkNetworkedStorage .backing
        [retrieveAnnounceBroker 1 (.ok goodBlock) true] tHashers none).get
        [] tCid false).events Ev.isWrite Ev.isAnnounce :=
  put_get_announce_write_order
    (mkNetworkedStorage .backing
      [retrieveAnnounceBroker 1 (.ok goodBlock) true] tHashers none)
    [] tCid goodBlock false

/-- Claim C1 counterexample: a broker whose `announce` rejects makes the
enclosing `put` (and a network-path `get`) reject with the announce
failure — the fan-out is awaited through `Promise.all`, so the failure is
escalated to the caller rather than swallowed. -/
theorem announce_failure_escalates_cex :
    ((mkNetworkedStorage .backing [announceBroker false] tHashers none).put
      [] tCid goodBlock).result = .error .announceRejected ∧
    ((mkNetworkedStorage .backing
        [retrieveAnnounceBroker 1 (.ok goodBlock) false] tHashers none).get
      [] tCid false).result = .error .announceRejected := by
  exact ⟨by decide, by decide⟩

/-- Claim C1 amended: the announce fan-out is awaited, so on the write
path `put` resolves iff every broker announce fulfils, and a network `get`
whose race resolved with a block resolves iff every announce of that block
fulfils. -/
theorem announce_rejection_escalates (f : NetworkedStorage) (s : Store)
    (cid : CID) (blk blk2 : Block)
    (hfresh : bsHas f.child s cid = false) :
    ((f.put s cid blk).result = .ok cid ↔
      announceAllOk f.blockBrokers cid blk = true) ∧
    ((raceBlockRetrievers cid f.blockBrokers
        (f.hashers cid.mhCode)).result = .ok blk2 →
      ((f.get s cid false).result = .ok blk2 ↔
        announceAllOk f.blockBrokers cid blk2 = true)) := by
  constructor
  · cases hann : announceAllOk f.blockBrokers cid blk with
    | true =>
        rw [put_eq_write f s cid blk hfresh hann]
        simp
    | false =>
        rw [put_eq_announce_rejected f s cid blk hfresh hann]
        simp
  · intro hres
    cases hann : announceAllOk f.blockBrokers cid blk2 with
    | true =>
        rw [get_eq_network_ok f s cid blk2 hfresh hres hann]
        simp
    | false =>
        rw [get_eq_network_announce_rejected f s cid blk2 hfresh hres hann]
        simp

/-- Claim C1 amended witness: with one fulfilling announce-capable broker
and one retrieving broker, the concrete `put` and `get` resolve, matching
the all-announces-fulfil side of the equivalence. -/
theorem announce_rejection_escalates_witness :
    bsHas (mkNetworkedStorage .backing
        [retrieveAnnounceBroker 1 (.ok goodBlock) true] tHashers none).child
      [] tCid = false ∧
    ((((mkNetworkedStorage .backing
        [retrieveAnnounceBroker 1 (.ok goodBlock) true] tHashers none).put
        [] tCid goodBlock).result = .ok tCid ↔
      announceAllOk [retrieveAnnounceBroker 1 (.ok goodBlock) true] tCid
        goodBlock = true) ∧
     ((raceBlockRetrievers tCid
        [retrieveAnnounceBroker 1 (.ok goodBlock) true]
        (tHashers tCid.mhCode)).result = .ok goodBlock →
      ((((mkNetworkedStorage .backing
          [retrieveAnnounceBroker 1 (.ok goodBlock) true] tHashers none).get
          [] tCid false).result = .ok goodBlock) ↔
        announceAllOk [retrieveAnnounceBroker 1 (.ok goodBlock) true] tCid
          goodBlock = true))) :=
  ⟨by decide,
   announce_rejection_escalates
     (mkNetworkedStorage .backing
       [retrieveAnnounceBroker 1 (.ok goodBlock) true] tHashers none)
     [] tCid goodBlock goodBlock (by decide)⟩

/-- Claim C3 counterexample: `put` performs no digest verification, so a
block whose digest does not match its CID is written to the local tier and
later served to a caller by `get` — the facade-wide verification claim
fails on the put/local path. -/
theorem unverified_put_block_served_cex :
    tHasher.digest badBlock ≠ tCid.mhDigest ∧
    ((mkNetworkedStorage .backing [] tHashers none).put
      [] tCid badBlock).result = .ok tCid ∧
    storeHas ((mkNetworkedStorage .backing [] tHashers none).put
      [] tCid badBlock).store tCid = true ∧
    ((mkNetworkedStorage .backing [] tHashers none).get
      (((mkNetworkedStorage .backing [] tHashers none).put
        [] tCid badBlock).store) tCid false).result = .ok badBlock := by
  exact ⟨by decide, by decide, by decide, by decide⟩

/-- Claim C3 amended: only the remote retrieval path verifies: a block a
network-path `get` resolves with hashes to the CID's digest, and that path
only ever writes a digest-matching block to the local tier; `put` and
local-tier reads perform no verification. -/
theorem get_network_path_verified (f : NetworkedStorage) (s : Store)
    (cid : CID) (h : MultihashHasher) (blk : Block)
    (hh : f.hashers cid.mhCode = some h)
    (hhas : bsHas f.child s cid = false) :
    ((f.get s cid false).result = .ok blk → h.digest blk = cid.mhDigest) ∧
    ((f.get s cid false).store ≠ s →
      ∃ b, (f.get s cid false).store = bsPut f.child s cid b ∧
        h.digest b = cid.mhDigest) := by
  cases hres : (raceBlockRetrievers cid f.blockBrokers
      (f.hashers cid.mhCode)).result with
  | error e =>
      rw [get_eq_race_error f s cid hhas e hres]
      constructor
      · intro hk
        exact absurd hk (by simp)
      · intro hne
        exact absurd rfl hne
  | ok b =>
      have hb : h.digest b = cid.mhDigest := by
        rw [hh] at hres
        exact race_ok_validated cid f.blockBrokers h b hres
      cases hann : announceAllOk f.blockBrokers cid b with
      | true =>
          rw [get_eq_network_ok f s cid b hhas hres hann]
          constructor
          · intro hk
            simp only [Except.ok.injEq] at hk
            subst hk
            exact hb
          · intro _
            exact ⟨b, rfl, hb⟩
      | false =>
          rw [get_eq_network_announce_rejected f s cid b hhas hres hann]
          constructor
          · intro hk
            exact absurd hk (by simp)
          · intro _
            exact ⟨b, rfl, hb⟩

/-- Claim C3 amended witness: at a concrete one-broker facade, a
network-path `get` of a missing CID returns only digest-matching bytes. -/
theorem get_network_path_verified_witness :
    tHashers tCid.mhCode = some tHasher ∧
    bsHas (mkNetworkedStorage .backing
        [retrieverBroker 1 false (.ok goodBlock)] tHashers none).child
      [] tCid = false ∧
    ((((mkNetworkedStorage .backing
        [retrieverBroker 1 false (.ok goodBlock)] tHashers none).get
        [] tCid false).result = .ok goodBlock →
      tHasher.digest goodBlock = tCid.mhDigest) ∧
     (((mkNetworkedStorage .backing
        [retrieverBroker 1 false (.ok goodBlock)] tHashers none).get
        [] tCid false).store ≠ [] →
      ∃ b, ((mkNetworkedStorage .backing
          [retrieverBroker 1 false (.ok goodBlock)] tHashers none).get
          [] tCid false).store =
        bsPut (mkNetworkedStorage .backing
          [retrieverBroker 1 false (.ok goodBlock)] tHashers none).child
          [] tCid b ∧
        tHasher.digest b = tCid.mhDigest)) :=
  ⟨rfl, by decide,
   get_network_path_verified
     (mkNetworkedStorage .backing
       [retrieverBroker 1 false (.ok goodBlock)] tHashers none)
     [] tCid tHasher goodBlock rfl (by decide)⟩

/-- Claim C9: `createSession(root)` replaces exactly the session-capable
brokers with their root-scoped instances and reuses the rest, keeps the
same hasher registry, tags the facade with `root`, and wraps the very same
child blockstore, so its lookups (`has`/`get`) and writes observe exactly
the state the original facade observes. -/
theorem createSession_brokers_and_shared_store (bs : Blockstore)
    (brokers : List Broker) (hashers : Nat → Option MultihashHasher)
    (root0 : Option CID) (root : CID) :
    ((mkNetworkedStorage bs brokers hashers root0).createSession
        root).blockBrokers =
      brokers.map (fun b =>
        match b.createSession with
        | none => b
        | some mks => mks root) ∧
    ((mkNetworkedStorage bs brokers hashers root0).createSession root).child =
      .tiered .identity (mkNetworkedStorage bs brokers hashers root0).child ∧
    ((mkNetworkedStorage bs brokers hashers root0).createSession root).hashers =
      hashers ∧
    ((mkNetworkedStorage bs brokers hashers root0).createSession root).root =
      some root ∧
    (∀ s cid,
      bsHas ((mkNetworkedStorage bs brokers hashers root0).createSession
          root).child s cid =
        bsHas (mkNetworkedStorage bs brokers hashers root0).child s cid) ∧
    (∀ s cid,
      bsGet ((mkNetworkedStorage bs brokers hashers root0).createSession
          root).child s cid =
        bsGet (mkNetworkedStorage bs brokers hashers root0).child s cid) ∧
    (∀ s cid blk,
      bsPut ((mkNetworkedStorage bs brokers hashers root0).createSession
          root).child s cid blk =
        bsPut (mkNetworkedStorage bs brokers hashers root0).child s cid blk) := by
  refine ⟨rfl, rfl, rfl, rfl, ?_, ?_, ?_⟩
  · intro s cid
    by_cases h0 : cid.mhCode = identityCode <;>
      simp [NetworkedStorage.createSession, mkNetworkedStorage, bsHas, h0]
  · intro s cid
    by_cases h0 : cid.mhCode = identityCode <;>
      simp [NetworkedStorage.createSession, mkNetworkedStorage, bsGet, h0,
        Option.or]
  · intro s cid blk
    rfl

/-- Claim C9 witness: a concrete facade with one session-capable broker
and one plain broker; the session facade swaps only the capable one and
its child wraps the original child. -/
theorem createSession_brokers_and_shared_store_witness :
    ((mkNetworkedStorage .backing
        [sessionCapableBroker (announceBroker true), announceBroker false]
        tHashers none).createSession tCid).blockBrokers =
      [announceBroker true, announceBroker false] ∧
    (∀ s cid,
      bsHas ((mkNetworkedStorage .backing
          [sessionCapableBroker (announceBroker true), announceBroker false]
          tHashers none).createSession tCid).child s cid =
        bsHas (mkNetworkedStorage .backing
          [sessionCapableBroker (announceBroker true), announceBroker false]
          tHashers none).child s cid) :=
  ⟨(createSession_brokers_and_shared_store .backing
      [sessionCapableBroker (announceBroker true), announceBroker false]
      tHashers none tCid).1,
   (createSession_brokers_and_shared_store .backing
      [sessionCapableBroker (announceBroker true), announceBroker false]
      tHashers none tCid).2.2.2.2.1⟩

end Helia
